import Mathlib

/-!
# Verification of `@rix1/table-sort` (`src/mod.ts`)

Shallow embedding of the click-to-sort engine in `src/mod.ts`:
the row comparator inside `sortRows`, the sort-state toggle and DOM
mutations of `sortTableBy`, the indicator refresh of
`updateSortIndicators`, and the click entry `sortTableHeaderClick`.

JavaScript numbers are modelled as exact rationals extended with
`NaN`/`±Infinity`; none of the verified properties depends on float64
rounding.  Host builtins that the code calls (`Number` string
conversion, `localeCompare`, `Array.prototype.sort`, `appendChild`)
are modelled explicitly below, each with a comment saying what it
stands for.
-/

namespace TableSort

/-- A JavaScript number: `NaN`, `±Infinity`, or a finite value
(modelled as an exact rational). -/
inductive JSNum where
  | nan
  | inf
  | ninf
  | fin (q : ℚ)
deriving DecidableEq, Repr

/-- `Number.isNaN` on the modelled numbers. -/
def JSNum.isNaN : JSNum → Bool
  | .nan => true
  | _ => false

/-- Exact rational subtraction written on cross-multiplied integer
parts (definitionally computable; `ratSub_eq_sub` below shows it is
ordinary subtraction). -/
def ratSub (a b : ℚ) : ℚ :=
  Rat.divInt (a.num * (b.den : ℤ) - b.num * (a.den : ℤ)) ((a.den : ℤ) * (b.den : ℤ))

/-- JavaScript subtraction `a - b` on the modelled numbers
(`Infinity - Infinity = NaN`, etc.). -/
def JSNum.sub : JSNum → JSNum → JSNum
  | .nan, _ => .nan
  | _, .nan => .nan
  | .inf, .inf => .nan
  | .inf, .ninf => .inf
  | .inf, .fin _ => .inf
  | .ninf, .ninf => .nan
  | .ninf, .inf => .ninf
  | .ninf, .fin _ => .ninf
  | .fin _, .inf => .ninf
  | .fin _, .ninf => .inf
  | .fin a, .fin b => .fin (ratSub a b)

/-- JavaScript unary minus on the modelled numbers. -/
def JSNum.neg : JSNum → JSNum
  | .nan => .nan
  | .inf => .ninf
  | .ninf => .inf
  | .fin q => .fin (-q)

/-- The values `getValueFromRow` can produce: the number `0` (its
missing-cell fallback, kept general as any number), a string attribute
value, or `null` from `getAttribute` when the attribute is absent. -/
inductive JSVal where
  | num (q : ℚ)
  | vstr (s : String)
  | vnull
deriving DecidableEq, Repr

/-- JavaScript truthiness of the modelled values (`0`, `""` and
`null` are falsy; the code's `!aValue` tests). -/
def JSVal.truthy : JSVal → Bool
  | .num q => q ≠ 0
  | .vstr s => s ≠ ""
  | .vnull => false

/-- Decimal digit run to a natural number. -/
def digitsVal (cs : List Char) : ℕ :=
  cs.foldl (fun a c => a * 10 + (c.toNat - 48)) 0

/-- All characters are decimal digits and the run is nonempty. -/
def allDigits (cs : List Char) : Bool :=
  !cs.isEmpty && cs.all (·.isDigit)

/-- Hex digit test. -/
def isHexDigit (c : Char) : Bool :=
  c.isDigit || ('a' ≤ c && c ≤ 'f') || ('A' ≤ c && c ≤ 'F')

/-- Hex digit value. -/
def hexDigitVal (c : Char) : ℕ :=
  if c.isDigit then c.toNat - 48
  else if 'a' ≤ c && c ≤ 'f' then c.toNat - 87
  else c.toNat - 55

/-- Radix digit run to a natural number. -/
def radixVal (radix : ℕ) (cs : List Char) : ℕ :=
  cs.foldl (fun a c => a * radix + hexDigitVal c) 0

/-- Parse the unsigned decimal mantissa `Digits [. Digits]` (at least
one digit overall) of a JS string numeric literal, as the integer
made of all its digits together with the number of fractional digits
(so `1.5` parses to `(15, 1)`, meaning `15 / 10 ^ 1`). -/
def parseMantissa (cs : List Char) : Option (ℤ × ℕ) :=
  let ip := cs.takeWhile (· ≠ '.')
  let rest := cs.dropWhile (· ≠ '.')
  match rest with
  | [] =>
      if allDigits ip then some ((digitsVal ip : ℤ), 0) else none
  | _ :: fp =>
      if (ip.all (·.isDigit)) && (fp.all (·.isDigit)) && !(ip.isEmpty && fp.isEmpty) then
        some ((digitsVal (ip ++ fp) : ℤ), fp.length)
      else none

/-- Parse the optional exponent part (`e`/`E` sign? digits). -/
def parseExponent (cs : List Char) : Option ℤ :=
  match cs with
  | [] => some 0
  | _ :: ecs =>
      match ecs with
      | '+' :: ds => if allDigits ds then some (digitsVal ds) else none
      | '-' :: ds => if allDigits ds then some (-(digitsVal ds : ℤ)) else none
      | ds => if allDigits ds then some (digitsVal ds) else none

/-- `n / 10 ^ scale` shifted by the decimal exponent `e`, i.e. the
value `n * 10 ^ (e - scale)` as an exact rational. -/
def applyExponent (n : ℤ) (scale : ℕ) (e : ℤ) : ℚ :=
  let t : ℤ := e - (scale : ℤ)
  if 0 ≤ t then ((n * (10 : ℤ) ^ t.toNat : ℤ) : ℚ)
  else Rat.divInt n ((10 : ℤ) ^ (-t).toNat)

/-- Parse an unsigned decimal literal with optional exponent. -/
def parseDecBody (cs : List Char) : Option ℚ :=
  let mant := cs.takeWhile (fun c => c ≠ 'e' && c ≠ 'E')
  let erest := cs.dropWhile (fun c => c ≠ 'e' && c ≠ 'E')
  match parseMantissa mant, parseExponent erest with
  | some (n, scale), some e => some (applyExponent n scale e)
  | _, _ => none

/-- Strip leading and trailing whitespace from a character list
(models the whitespace trimming of JS string-to-number conversion). -/
def trimChars (cs : List Char) : List Char :=
  ((cs.dropWhile Char.isWhitespace).reverse.dropWhile Char.isWhitespace).reverse

/-- Models the host's `Number(string)` conversion (trim whitespace;
empty string is `0`; `Infinity` forms; `0x`/`0o`/`0b` integer
literals; signed decimal literals with exponent; anything else `NaN`).
Finite results are kept as exact rationals. -/
def jsNumberOfString (s : String) : JSNum :=
  let cs := trimChars s.data
  if cs.isEmpty then .fin 0
  else
    match cs with
    | '0' :: 'x' :: rest =>
        if !rest.isEmpty && rest.all isHexDigit then .fin (radixVal 16 rest) else .nan
    | '0' :: 'X' :: rest =>
        if !rest.isEmpty && rest.all isHexDigit then .fin (radixVal 16 rest) else .nan
    | '0' :: 'o' :: rest =>
        if !rest.isEmpty && rest.all (fun c => '0' ≤ c && c ≤ '7') then
          .fin (radixVal 8 rest) else .nan
    | '0' :: 'O' :: rest =>
        if !rest.isEmpty && rest.all (fun c => '0' ≤ c && c ≤ '7') then
          .fin (radixVal 8 rest) else .nan
    | '0' :: 'b' :: rest =>
        if !rest.isEmpty && rest.all (fun c => c = '0' || c = '1') then
          .fin (radixVal 2 rest) else .nan
    | '0' :: 'B' :: rest =>
        if !rest.isEmpty && rest.all (fun c => c = '0' || c = '1') then
          .fin (radixVal 2 rest) else .nan
    | _ =>
        let isNeg := cs.head? = some '-'
        let body := if cs.head? = some '-' ∨ cs.head? = some '+' then cs.tail else cs
        if body = "Infinity".toList then
          (if isNeg then .ninf else .inf)
        else
          match parseDecBody body with
          | some q => .fin (if isNeg then -q else q)
          | none => .nan

/-- `Number(value)` on the modelled values (`Number(null) = 0`). -/
def jsToNumber : JSVal → JSNum
  | .num q => .fin q
  | .vnull => .fin 0
  | .vstr s => jsNumberOfString s

/-- Lexicographic strict order on character lists. -/
def charListLt : List Char → List Char → Bool
  | [], [] => false
  | [], _ :: _ => true
  | _ :: _, [] => false
  | a :: as, b :: bs => if a < b then true else if b < a then false else charListLt as bs

/-- Models the host's `String.prototype.localeCompare`: the collator
is a total order on strings (modelled as the lexicographic order on
the character sequences) and the result is the comparison sign. -/
def localeCompare (a b : String) : ℤ :=
  if charListLt a.data b.data then -1 else if charListLt b.data a.data then 1 else 0

/-- The value after the code's coercion step
`isNaN(Number(v)) ? v : Number(v)`, tagged with its `typeof`:
a number, a string, or anything else (the `typeof` of which is
neither `"string"` nor `"number"`). -/
inductive Coerced where
  | cnum (n : JSNum)
  | cstr (s : String)
  | cother
deriving DecidableEq, Repr

/-- The coercion step of the comparator in `sortRows`
(`isNaN(Number(aValue)) ? aValue : Number(aValue)`). -/
def coerceVal (v : JSVal) : Coerced :=
  if (jsToNumber v).isNaN then
    match v with
    | .vstr s => .cstr s
    | .num q => .cnum (.fin q)
    | .vnull => .cother
  else .cnum (jsToNumber v)

/-- The body of the comparator passed to `rows.sort` in `sortRows`,
lifted to operate on the two looked-up values. -/
def compareValues (order : String) (aValue bValue : JSVal) : JSNum :=
  if !aValue.truthy && !bValue.truthy then .fin 0
  else if !aValue.truthy then .fin 1
  else if !bValue.truthy then .fin (-1)
  else
    match coerceVal aValue, coerceVal bValue with
    | .cstr a, .cstr b =>
        .fin (if order = "asc" then (localeCompare a b : ℚ) else (localeCompare b a : ℚ))
    | .cnum a, .cnum b =>
        if order = "asc" then a.sub b else b.sub a
    | _, _ => .fin 0

/-- A `<td>`: its `data-sort-label` and `data-sort-value` attributes
(`none` when the attribute is absent). -/
structure Cell where
  sortLabel : Option String
  sortValue : Option String
deriving DecidableEq, Repr

/-- A `<tr>`: whether it carries the `panel-hidden` class, and its
cells in document order. -/
structure Row where
  hidden : Bool
  cells : List Cell
deriving DecidableEq, Repr

/-- A `<th>` candidate: its `data-sort-header` attribute and its
`innerText`. -/
structure Header where
  sortHeader : Option String
  text : String
deriving DecidableEq, Repr

/-- A `<table data-sort-table>`: its two state attributes, the headers
`querySelectorAll("[data-sort-header]")` would visit (document order),
and the `<tbody>` rows (document order). -/
structure Table where
  sortedByLabel : Option String
  sortOrder : Option String
  headers : List Header
  rows : List Row
deriving DecidableEq, Repr

/-- `getValueFromRow` in `sortRows`: `querySelector` for the first
cell whose `data-sort-label` equals the key; `0` when there is none;
otherwise the cell's `data-sort-value` attribute (`null` if absent). -/
def getValueFromRow (row : Row) (sortLabel : String) : JSVal :=
  match row.cells.find? (fun c => c.sortLabel = some sortLabel) with
  | none => .num 0
  | some cell =>
      match cell.sortValue with
      | none => .vnull
      | some s => .vstr s

/-- The comparator closure given to `rows.sort` in `sortRows`. -/
def rowCompare (sortLabel order : String) (a b : Row) : JSNum :=
  compareValues order (getValueFromRow a sortLabel) (getValueFromRow b sortLabel)

/-- ECMAScript `SortCompare`: the sign of the comparator result
steers the sort, a `NaN` result counting as `0`. -/
def jsSortKey : JSNum → ℤ
  | .nan => 0
  | .inf => 1
  | .ninf => -1
  | .fin q => if q < 0 then -1 else if 0 < q then 1 else 0

/-- The "goes no later than" relation induced by the comparator,
used to model `Array.prototype.sort`. -/
def rowLe (sortLabel order : String) (a b : Row) : Prop :=
  jsSortKey (rowCompare sortLabel order a b) ≤ 0

instance (sortLabel order : String) : DecidableRel (rowLe sortLabel order) :=
  fun a b => by unfold rowLe; infer_instance

/-- `sortRows`: `Array.prototype.sort` with the row comparator,
modelled as a stable comparison sort (insertion sort). -/
def sortRows (rows : List Row) (sortLabel order : String) : List Row :=
  List.insertionSort (rowLe sortLabel order) rows

/-- JavaScript template/`setAttribute` string coercion of a possibly
`null` attribute value (`null` prints as `"null"`). -/
def interpAttr : Option String → String
  | some s => s
  | none => "null"

/-- A DOM mutation performed by `sortTableBy`, in the order the code
performs them. -/
inductive Effect where
  | setAttr (name value : String)
  | setHeaderText (sortHeader : Option String) (text : String)
  | appendRow (row : Row)
deriving DecidableEq, Repr

/-- The last character of a string, if any, equals `c`. -/
def lastCharIs (s : String) (c : Char) : Bool :=
  s.data.getLast? = some c

/-- `innerText.replace(/(↓|↑)$/, "")` in `updateSortIndicators`:
drop a single trailing arrow character if present. -/
def stripGlyph (s : String) : String :=
  if lastCharIs s '↓' || lastCharIs s '↑' then ⟨s.data.dropLast⟩ else s

/-- The per-header body of `updateSortIndicators`: strip the trailing
glyph, then append the icon exactly when the header's
`data-sort-header` equals the active label. -/
def updateHeader (sortLabel : Option String) (sortOrder : String) (h : Header) : Header :=
  let icon := if sortOrder = "asc" then " ↓" else " ↑"
  { h with text := stripGlyph h.text ++ (if h.sortHeader = sortLabel then icon else "") }

/-- `updateSortIndicators`: rewrite the text of every header bearing
`data-sort-header` (those are the ones `querySelectorAll` returns),
also returning the `innerText` writes as effects in order. -/
def updateSortIndicators (sortLabel : Option String) (sortOrder : String)
    (headers : List Header) : List Header × List Effect :=
  (headers.map (fun h => if h.sortHeader.isSome then updateHeader sortLabel sortOrder h else h),
   (headers.filter (fun h => h.sortHeader.isSome)).map
     (fun h => Effect.setHeaderText h.sortHeader (updateHeader sortLabel sortOrder h).text))

/-- `tbody.appendChild(row)` on a row already in the body: the node
is moved from its current position to the end. -/
def appendChild (rows : List Row) (r : Row) : List Row :=
  rows.erase r ++ [r]

/-- `sortedRows.forEach((row) => tbody.appendChild(row))`. -/
def reAppend (rows sortedRows : List Row) : List Row :=
  sortedRows.foldl appendChild rows

/-- The body of `sortTableBy` once the table is known non-null:
toggle the order, write both state attributes, refresh indicators,
then sort the non-hidden rows and re-append them.  Returns the new
table and the trace of DOM mutations in the order the code performs
them. -/
def sortTableByTable (t : Table) (sortLabel : Option String) : Table × List Effect :=
  let previouslySortedByLabel := t.sortedByLabel
  let prevSortOrder := t.sortOrder
  let newSortOrder :=
    if previouslySortedByLabel = sortLabel ∧ prevSortOrder = some "asc" then "desc" else "asc"
  let labelAttr := interpAttr sortLabel
  let headerPairs := updateSortIndicators sortLabel newSortOrder t.headers
  let visibleRows := t.rows.filter (fun r => !r.hidden)
  let sortedRows := sortRows visibleRows labelAttr newSortOrder
  let newRows := reAppend t.rows sortedRows
  ({ sortedByLabel := some labelAttr, sortOrder := some newSortOrder,
     headers := headerPairs.1, rows := newRows },
   Effect.setAttr "data-sort-order" newSortOrder ::
     Effect.setAttr "data-sorted-by-label" labelAttr ::
     (headerPairs.2 ++ sortedRows.map Effect.appendRow))

/-- `sortTableBy(table, sortLabel)`: its first action is
`table.getAttribute(...)`, which throws a `TypeError` when `table` is
`null` (the unguarded result of `closest`). -/
def sortTableBy (table : Option Table) (sortLabel : Option String) :
    Except String (Table × List Effect) :=
  match table with
  | none => .error "TypeError"
  | some t => .ok (sortTableByTable t sortLabel)

/-- The clicked element as the handler sees it: the result of
`closest("[data-sort-table]")` and its own `data-sort-header`
attribute. -/
structure ClickTarget where
  closestSortTable : Option Table
  sortHeader : Option String
deriving Repr

/-- `sortTableHeaderClick(target)`: resolve the ancestor table and the
column key, then delegate to `sortTableBy`. -/
def sortTableHeaderClick (target : ClickTarget) : Except String (Table × List Effect) :=
  sortTableBy target.closestSortTable target.sortHeader

/-- The header text ends in a directional glyph. -/
def endsGlyph (s : String) : Bool :=
  lastCharIs s '↓' || lastCharIs s '↑'

/-- The effect is an attribute write on the table. -/
def Effect.isSetAttr : Effect → Bool
  | .setAttr _ _ => true
  | _ => false

/-- The effect is a header `innerText` write. -/
def Effect.isHeaderText : Effect → Bool
  | .setHeaderText _ _ => true
  | _ => false

/-- The effect is a row re-append. -/
def Effect.isAppend : Effect → Bool
  | .appendRow _ => true
  | _ => false

/-- Every effect selected by `earlier` occurs before every effect
selected by `later`: after any `later` effect, no `earlier` effect
follows. -/
def phaseOrdered (earlier later : Effect → Bool) : List Effect → Bool
  | [] => true
  | e :: tr =>
      ((!(later e)) || tr.all (fun e2 => !(earlier e2))) && phaseOrdered earlier later tr

/-! ### Concrete fixtures used by witnesses and counterexamples -/

/-- A visible row with a `price` cell carrying raw value `v`. -/
def priceRow (v : String) : Row := ⟨false, [⟨some "price", some v⟩]⟩

/-- A visible row with no cell for the `price` key. -/
def rowMissing : Row := ⟨false, []⟩

/-- A visible row whose `price` cell carries the empty raw value. -/
def rowEmptyVal : Row := ⟨false, [⟨some "price", some ""⟩]⟩

/-- A visible row whose `price` cell lacks the value attribute. -/
def rowNoValAttr : Row := ⟨false, [⟨some "price", none⟩]⟩

/-- A hidden row (`panel-hidden` class). -/
def hiddenRow : Row := ⟨true, [⟨some "price", some "50"⟩]⟩

/-- A two-column demo table with no recorded sort state. -/
def demoTable : Table :=
  ⟨none, none, [⟨some "price", "Price"⟩, ⟨some "name", "Name"⟩],
    [priceRow "100", priceRow "200"]⟩

/-- A table whose body holds a visible row followed by a hidden row. -/
def hiddenDemoTable : Table :=
  ⟨none, none, [⟨some "price", "Price"⟩], [priceRow "100", hiddenRow]⟩

/-- A table already sorted by `price` in descending order. -/
def descDemoTable : Table :=
  ⟨some "price", some "desc", [⟨some "price", "Price"⟩], [priceRow "100"]⟩

/-! ### Arithmetic and collation helper lemmas -/

/-- The cross-multiplied subtraction is ordinary rational subtraction. -/
theorem ratSub_eq_sub (a b : ℚ) : ratSub a b = a - b := by
  have ha : ((a.den : ℚ)) ≠ 0 := Nat.cast_ne_zero.mpr a.den_nz
  have hb : ((b.den : ℚ)) ≠ 0 := Nat.cast_ne_zero.mpr b.den_nz
  rw [ratSub, Rat.divInt_eq_div]
  push_cast
  conv_rhs => rw [← Rat.num_div_den a, ← Rat.num_div_den b]
  rw [div_sub_div _ _ ha hb]
  ring_nf

/-- Swapping the operands of JS subtraction negates the result. -/
theorem JSNum.sub_swap (a b : JSNum) : b.sub a = (a.sub b).neg := by
  cases a <;> cases b <;> simp [JSNum.sub, JSNum.neg, ratSub_eq_sub, neg_sub]

/-- The lexicographic order on character lists is asymmetric. -/
theorem charListLt_asymm : ∀ (x y : List Char),
    charListLt x y = true → charListLt y x = false
  | [], [] => by simp [charListLt]
  | [], _ :: _ => by simp [charListLt]
  | _ :: _, [] => by simp [charListLt]
  | a :: as, b :: bs => by
    by_cases h1 : a < b
    · intro _
      simp [charListLt, h1, lt_asymm h1]
    · by_cases h2 : b < a
      · simp [charListLt, h1, h2]
      · simp only [charListLt, if_neg h1, if_neg h2]
        exact charListLt_asymm as bs

/-- Swapping the operands of the modelled collator negates the result. -/
theorem localeCompare_swap (a b : String) : localeCompare b a = -(localeCompare a b) := by
  unfold localeCompare
  by_cases h1 : charListLt a.data b.data = true
  · simp [h1, charListLt_asymm _ _ h1]
  · by_cases h2 : charListLt b.data a.data = true
    · simp [h1, h2]
    · simp [h1, h2]

/-! ### Comparator branch lemmas -/

/-- Falsy versus truthy value: the comparator returns `1`. -/
theorem compareValues_falsy_truthy (order : String) {va vb : JSVal}
    (ha : va.truthy = false) (hb : vb.truthy = true) :
    compareValues order va vb = .fin 1 := by
  simp [compareValues, ha, hb]

/-- Truthy versus falsy value: the comparator returns `-1`. -/
theorem compareValues_truthy_falsy (order : String) {va vb : JSVal}
    (ha : va.truthy = true) (hb : vb.truthy = false) :
    compareValues order va vb = .fin (-1) := by
  simp [compareValues, ha, hb]

/-- Two falsy values: the comparator returns `0`. -/
theorem compareValues_falsy_falsy (order : String) {va vb : JSVal}
    (ha : va.truthy = false) (hb : vb.truthy = false) :
    compareValues order va vb = .fin 0 := by
  simp [compareValues, ha, hb]

/-! ### Claims -/

/-- C1: the next sort order computed on a click is `desc` exactly when
the table's recorded sorted key equals the clicked key and the
recorded order is `asc`; in every other case (different key, no prior
state, or prior order `desc`) the next order is exactly `asc` — in
particular, clicking a different column than the currently sorted one
always yields `asc`. -/
theorem toggle_next_order (t : Table) (k : String) :
    ((sortTableByTable t (some k)).1.sortOrder = some "desc"
        ↔ t.sortedByLabel = some k ∧ t.sortOrder = some "asc")
    ∧ (¬(t.sortedByLabel = some k ∧ t.sortOrder = some "asc") →
        (sortTableByTable t (some k)).1.sortOrder = some "asc")
    ∧ (t.sortedByLabel ≠ some k →
        (sortTableByTable t (some k)).1.sortOrder = some "asc") := by
  by_cases h : t.sortedByLabel = some k ∧ t.sortOrder = some "asc"
  · exact ⟨by simp [sortTableByTable, h], fun hn => absurd h hn,
      fun hne => absurd h.1 hne⟩
  · refine ⟨?_, ?_, ?_⟩
    · simp only [sortTableByTable, if_neg h]
      simp only [h, iff_false]
      intro hcon
      simp at hcon
    · intro _
      simp [sortTableByTable, if_neg h]
    · intro _
      simp [sortTableByTable, if_neg h]

/-- Witness for C1: a same-key click with prior order `desc` yields
exactly `asc`, and clicking a column other than the sorted one also
yields exactly `asc`. -/
theorem toggle_next_order_witness :
    (sortTableByTable descDemoTable (some "price")).1.sortOrder = some "asc"
    ∧ (sortTableByTable demoTable (some "name")).1.sortOrder = some "asc" :=
  ⟨(toggle_next_order descDemoTable "price").2.1 (by decide),
   (toggle_next_order demoTable "name").2.2 (by decide)⟩

/-- Counterexample to C2: a click on a header with no enclosing
`data-sort-table` ancestor does not fail silently — `closest` yields
`null` and the immediate `table.getAttribute` call inside
`sortTableBy` throws a `TypeError`, so an exception does propagate. -/
theorem click_no_table_throws :
    sortTableHeaderClick ⟨none, some "price"⟩ = .error "TypeError" := rfl

/-- C2 as amended: when the clicked header has no enclosing marked
table the handler throws a `TypeError` (before any DOM mutation);
when the ancestor exists the handler always proceeds — even with the
column key attribute absent it commits sort state (with the key
attribute coerced to the string `"null"`) rather than performing a
no-op. -/
theorem click_handler_behavior (target : ClickTarget) :
    (target.closestSortTable = none →
        sortTableHeaderClick target = .error "TypeError")
    ∧ (∀ t : Table, target.closestSortTable = some t →
        sortTableHeaderClick target = .ok (sortTableByTable t target.sortHeader)
          ∧ (sortTableByTable t target.sortHeader).1.sortedByLabel
              = some (interpAttr target.sortHeader)) := by
  constructor
  · intro h
    simp [sortTableHeaderClick, sortTableBy, h]
  · intro t h
    exact ⟨by simp [sortTableHeaderClick, sortTableBy, h], by simp [sortTableByTable]⟩

/-- Witness for C2 (amended): a table ancestor with the key attribute
absent still commits state, recording the label attribute `"null"`. -/
theorem click_handler_behavior_witness :
    sortTableHeaderClick ⟨some demoTable, none⟩
        = .ok (sortTableByTable demoTable none)
      ∧ (sortTableByTable demoTable none).1.sortedByLabel = some "null" :=
  (click_handler_behavior ⟨some demoTable, none⟩).2 demoTable rfl

/-- Both values truthy: the comparator reaches the typed comparison. -/
theorem compareValues_truthy (order : String) {va vb : JSVal}
    (ha : va.truthy = true) (hb : vb.truthy = true) :
    compareValues order va vb =
      match coerceVal va, coerceVal vb with
      | .cstr a, .cstr b =>
          .fin (if order = "asc" then (localeCompare a b : ℚ) else (localeCompare b a : ℚ))
      | .cnum a, .cnum b => if order = "asc" then a.sub b else b.sub a
      | _, _ => .fin 0 := by
  simp [compareValues, ha, hb]

/-- Counterexample to C4: on the numeric values `"100"` and `"200"`
the comparator returns their arithmetic difference `-100`, which is
not in `{-1, 0, 1}`. -/
theorem comparator_range_cex :
    compareValues "asc" (.vstr "100") (.vstr "200")
      ∉ [JSNum.fin (-1), JSNum.fin 0, JSNum.fin 1] := by decide

/-- C4 as amended: the comparator returns `-1`, `0` or `1` in every
branch except when both present values coerce to numbers, where it
returns the (possibly large) arithmetic difference of the two. -/
theorem comparator_range (order : String) (va vb : JSVal) :
    compareValues order va vb ∈ [JSNum.fin (-1), JSNum.fin 0, JSNum.fin 1]
    ∨ (va.truthy = true ∧ vb.truthy = true
        ∧ ∃ na nb, coerceVal va = .cnum na ∧ coerceVal vb = .cnum nb
          ∧ compareValues order va vb
              = (if order = "asc" then na.sub nb else nb.sub na)) := by
  by_cases ha : va.truthy = true
  · by_cases hb : vb.truthy = true
    · have hmixed : ∀ {x y : Coerced}, coerceVal va = x → coerceVal vb = y →
          (compareValues order va vb = match x, y with
            | .cstr a, .cstr b =>
                JSNum.fin (if order = "asc" then (localeCompare a b : ℚ)
                  else (localeCompare b a : ℚ))
            | .cnum a, .cnum b => if order = "asc" then a.sub b else b.sub a
            | _, _ => JSNum.fin 0) := by
        intro x y hx hy
        rw [compareValues_truthy order ha hb, hx, hy]
      rcases hca : coerceVal va with na | sa | _ <;>
        rcases hcb : coerceVal vb with nb | sb | _
      · exact Or.inr ⟨ha, hb, na, nb, rfl, rfl, hmixed hca hcb⟩
      · left; rw [hmixed hca hcb]; simp
      · left; rw [hmixed hca hcb]; simp
      · left; rw [hmixed hca hcb]; simp
      · left
        rw [hmixed hca hcb]
        dsimp only
        have h1 : localeCompare sa sb = -1 ∨ localeCompare sa sb = 0
            ∨ localeCompare sa sb = 1 := by
          unfold localeCompare; split_ifs <;> simp
        have h2 : localeCompare sb sa = -1 ∨ localeCompare sb sa = 0
            ∨ localeCompare sb sa = 1 := by
          unfold localeCompare; split_ifs <;> simp
        split_ifs
        · rcases h1 with h | h | h <;> rw [h] <;> simp
        · rcases h2 with h | h | h <;> rw [h] <;> simp
      · left; rw [hmixed hca hcb]; simp
      · left; rw [hmixed hca hcb]; simp
      · left; rw [hmixed hca hcb]; simp
      · left; rw [hmixed hca hcb]; simp
    · have hb' : vb.truthy = false := by
        cases h : vb.truthy; rfl; exact absurd h hb
      rw [compareValues_truthy_falsy order ha hb']
      simp
  · have ha' : va.truthy = false := by
      cases h : va.truthy; rfl; exact absurd h ha
    by_cases hb : vb.truthy = true
    · rw [compareValues_falsy_truthy order ha' hb]; simp
    · have hb' : vb.truthy = false := by
        cases h : vb.truthy; rfl; exact absurd h hb
      rw [compareValues_falsy_falsy order ha' hb']; simp

/-- Counterexample to C6: the raw value `"Infinity"` is coerced to a
number by the comparator (since `isNaN(Number("Infinity"))` is false)
although the string does not parse as a finite number. -/
theorem coercion_infinity_cex :
    (∃ n, coerceVal (.vstr "Infinity") = .cnum n)
    ∧ ∀ q : ℚ, jsNumberOfString "Infinity" ≠ .fin q := by
  refine ⟨⟨.inf, by decide⟩, ?_⟩
  intro q h
  rw [show jsNumberOfString "Infinity" = JSNum.inf from by decide] at h
  exact JSNum.noConfusion h

/-- C6 as amended: a present raw value is coerced to a number if and
only if JS `Number` conversion of the string is not `NaN` — which
also admits the infinite values `"Infinity"`/`"-Infinity"`, so
finiteness is not required; otherwise it is kept as a string and
compared by the collator. -/
theorem coercion_criterion (s : String) :
    ((∃ n, coerceVal (.vstr s) = .cnum n) ↔ (jsNumberOfString s).isNaN = false)
    ∧ ((coerceVal (.vstr s) = .cstr s) ↔ (jsNumberOfString s).isNaN = true)
    ∧ (∀ (s2 order : String), (jsNumberOfString s).isNaN = true →
        (jsNumberOfString s2).isNaN = true → s ≠ "" → s2 ≠ "" →
        compareValues order (.vstr s) (.vstr s2)
          = .fin (if order = "asc" then (localeCompare s s2 : ℚ)
              else (localeCompare s2 s : ℚ))) := by
  have hcv : ∀ u : String, coerceVal (.vstr u)
      = if (jsNumberOfString u).isNaN then Coerced.cstr u
        else Coerced.cnum (jsNumberOfString u) := fun u => rfl
  refine ⟨?_, ?_, ?_⟩
  · rw [hcv]
    by_cases hn : (jsNumberOfString s).isNaN = true
    · rw [if_pos hn, hn]
      constructor
      · rintro ⟨n, h⟩
        exact Coerced.noConfusion h
      · intro h
        exact Bool.noConfusion h
    · have hn' : (jsNumberOfString s).isNaN = false := by
        cases h : (jsNumberOfString s).isNaN; rfl; exact absurd h hn
      rw [if_neg hn, hn']
      exact ⟨fun _ => rfl, fun _ => ⟨jsNumberOfString s, rfl⟩⟩
  · rw [hcv]
    by_cases hn : (jsNumberOfString s).isNaN = true
    · rw [if_pos hn, hn]
      exact ⟨fun _ => rfl, fun _ => rfl⟩
    · have hn' : (jsNumberOfString s).isNaN = false := by
        cases h : (jsNumberOfString s).isNaN; rfl; exact absurd h hn
      rw [if_neg hn, hn']
      constructor
      · intro h
        exact Coerced.noConfusion h
      · intro h
        exact Bool.noConfusion h
  · intro s2 order hn hn2 hs hs2
    have hta : (JSVal.vstr s).truthy = true := by simp [JSVal.truthy, hs]
    have htb : (JSVal.vstr s2).truthy = true := by simp [JSVal.truthy, hs2]
    rw [compareValues_truthy order hta htb, hcv, hcv, if_pos hn, if_pos hn2]

/-- Witness for C6 (amended): `"12px"` is `NaN` under `Number`
conversion, is kept as a string, and is compared by the collator
against another non-numeric value. -/
theorem coercion_criterion_witness :
    (coerceVal (.vstr "12px") = .cstr "12px")
    ∧ compareValues "asc" (.vstr "12px") (.vstr "9px")
        = .fin ((localeCompare "12px" "9px" : ℚ)) := by
  refine ⟨((coercion_criterion "12px").2.1).mpr (by decide), ?_⟩
  have h := ((coercion_criterion "12px").2.2) "9px" "asc"
    (by decide) (by decide) (by decide) (by decide)
  simpa using h

/-- C7: for values that are comparable after coercion (both numeric
or both string), reversing the direction mirrors the comparator:
`compare(a, b, desc) = -compare(a, b, asc)`. -/
theorem direction_mirror (va vb : JSVal)
    (hta : va.truthy = true) (htb : vb.truthy = true)
    (hk : (∃ na nb, coerceVal va = .cnum na ∧ coerceVal vb = .cnum nb)
        ∨ (∃ sa sb, coerceVal va = .cstr sa ∧ coerceVal vb = .cstr sb)) :
    compareValues "desc" va vb = (compareValues "asc" va vb).neg := by
  rcases hk with ⟨na, nb, hca, hcb⟩ | ⟨sa, sb, hca, hcb⟩
  · rw [compareValues_truthy _ hta htb, compareValues_truthy _ hta htb, hca, hcb]
    dsimp only
    rw [if_neg (by decide : ¬ ("desc" = "asc")), if_pos rfl]
    exact JSNum.sub_swap na nb
  · rw [compareValues_truthy _ hta htb, compareValues_truthy _ hta htb, hca, hcb]
    dsimp only
    rw [if_neg (by decide : ¬ ("desc" = "asc")), if_pos rfl, localeCompare_swap]
    simp [JSNum.neg]

/-- Witness for C7: two plain string values, both directions. -/
theorem direction_mirror_witness :
    compareValues "desc" (.vstr "apple") (.vstr "banana")
      = (compareValues "asc" (.vstr "apple") (.vstr "banana")).neg :=
  direction_mirror (.vstr "apple") (.vstr "banana") (by decide) (by decide)
    (Or.inr ⟨"apple", "banana", by decide, by decide⟩)

/-- C10: a row whose matching cell is present but carries an
empty-string raw value, or lacks the value attribute, is treated by
the comparator exactly like a row with no matching cell: it compares
equal (`0`) to a missing-cell row and sinks after every row with a
non-empty value, in both directions. -/
theorem empty_value_sinks (label order : String) (a : Row)
    (ha : getValueFromRow a label = .vstr "" ∨ getValueFromRow a label = .vnull) :
    (∀ b : Row, getValueFromRow b label = .num 0 →
        rowCompare label order a b = .fin 0 ∧ rowCompare label order b a = .fin 0)
    ∧ (∀ (b : Row) (s : String), getValueFromRow b label = .vstr s → s ≠ "" →
        rowCompare label order a b = .fin 1
          ∧ rowCompare label order b a = .fin (-1)) := by
  have hfa : (getValueFromRow a label).truthy = false := by
    rcases ha with h | h <;> simp [h, JSVal.truthy]
  constructor
  · intro b hb
    have hfb : (getValueFromRow b label).truthy = false := by
      simp [hb, JSVal.truthy]
    exact ⟨compareValues_falsy_falsy order hfa hfb,
      compareValues_falsy_falsy order hfb hfa⟩
  · intro b s hb hs
    have htb : (getValueFromRow b label).truthy = true := by
      simp [hb, JSVal.truthy, hs]
    exact ⟨compareValues_falsy_truthy order hfa htb,
      compareValues_truthy_falsy order htb hfa⟩

/-- Witness for C10: empty value versus a missing cell and versus the
value `"100"`. -/
theorem empty_value_sinks_witness :
    (rowCompare "price" "asc" rowEmptyVal rowMissing = .fin 0
      ∧ rowCompare "price" "asc" rowMissing rowEmptyVal = .fin 0)
    ∧ (rowCompare "price" "desc" rowNoValAttr (priceRow "100") = .fin 1
      ∧ rowCompare "price" "desc" (priceRow "100") rowNoValAttr = .fin (-1)) :=
  ⟨(empty_value_sinks "price" "asc" rowEmptyVal (Or.inl (by decide))).1
      rowMissing (by decide),
   (empty_value_sinks "price" "desc" rowNoValAttr (Or.inr (by decide))).2
      (priceRow "100") "100" (by decide) (by decide)⟩

/-- Counterexample to C3: a row with no `price` cell against a row
whose `price` cell is present with the empty raw value — the claim
puts the missing row strictly after the present one, but the
comparator returns `0`, and sorting leaves the missing row before the
present-valued row. -/
theorem missing_vs_empty_cex :
    getValueFromRow rowMissing "price" = .num 0
    ∧ (∃ c, rowEmptyVal.cells.find?
        (fun c => c.sortLabel = some "price") = some c)
    ∧ rowCompare "price" "asc" rowMissing rowEmptyVal ≠ .fin 1
    ∧ rowCompare "price" "asc" rowMissing rowEmptyVal = .fin 0
    ∧ sortRows [rowMissing, rowEmptyVal] "price" "asc"
        = [rowMissing, rowEmptyVal] := by
  exact ⟨by decide, ⟨⟨some "price", some ""⟩, by decide⟩, by decide, by decide, by decide⟩

/-- Insertion into a `Pairwise s` list stays `Pairwise s` when the
insertion relation `r` decides `s` (`s` transitive). -/
theorem pairwise_orderedInsert {α : Type} (r : α → α → Prop) [DecidableRel r]
    (s : α → α → Prop) (hs : ∀ a b c, s a b → s b c → s a c) (x : α)
    (h1 : ∀ y, r x y → s x y) (h2 : ∀ y, ¬ r x y → s y x) :
    ∀ l : List α, l.Pairwise s → (l.orderedInsert r x).Pairwise s
  | [], _ => by simp
  | y :: ys, hl => by
    rw [List.orderedInsert]
    rcases List.pairwise_cons.mp hl with ⟨hy, hys⟩
    by_cases hr : r x y
    · rw [if_pos hr]
      refine List.pairwise_cons.mpr ⟨?_, hl⟩
      intro z hz
      rcases List.mem_cons.mp hz with rfl | hz'
      · exact h1 _ hr
      · exact hs _ _ _ (h1 _ hr) (hy _ hz')
    · rw [if_neg hr]
      refine List.pairwise_cons.mpr
        ⟨?_, pairwise_orderedInsert r s hs x h1 h2 ys hys⟩
      intro z hz
      rcases (List.mem_orderedInsert r).mp hz with rfl | hz'
      · exact h2 _ hr
      · exact hy _ hz'

/-- The insertion sort used to model `Array.prototype.sort` yields a
`Pairwise s` list when the comparison relation decides `s`. -/
theorem pairwise_insertionSort {α : Type} (r : α → α → Prop) [DecidableRel r]
    (s : α → α → Prop) (hs : ∀ a b c, s a b → s b c → s a c)
    (h1 : ∀ x y, r x y → s x y) (h2 : ∀ x y, ¬ r x y → s y x) :
    ∀ l : List α, (l.insertionSort r).Pairwise s
  | [] => by simp
  | x :: xs => by
    rw [List.insertionSort]
    exact pairwise_orderedInsert r s hs x (h1 x) (h2 x) _
      (pairwise_insertionSort r s hs h1 h2 xs)

/-- C3 as amended: with "missing" read as the comparator's falsy test
(no matching cell, absent value attribute, or empty-string value): if
exactly one of two rows has a missing-or-empty value it sorts after
the other in both directions; two such rows compare equal; and after
sorting, every missing-or-empty row is placed after every row with a
non-empty value. -/
theorem missing_values_sink (label order : String) :
    (∀ a b : Row, (getValueFromRow a label).truthy = false →
        (getValueFromRow b label).truthy = true →
        rowCompare label order a b = .fin 1
          ∧ rowCompare label order b a = .fin (-1))
    ∧ (∀ a b : Row, (getValueFromRow a label).truthy = false →
        (getValueFromRow b label).truthy = false →
        rowCompare label order a b = .fin 0)
    ∧ (∀ rows : List Row, (sortRows rows label order).Pairwise
        (fun a b => (getValueFromRow a label).truthy = false →
          (getValueFromRow b label).truthy = false)) := by
  refine ⟨?_, ?_, ?_⟩
  · intro a b ha hb
    exact ⟨compareValues_falsy_truthy order ha hb,
      compareValues_truthy_falsy order hb ha⟩
  · intro a b ha hb
    exact compareValues_falsy_falsy order ha hb
  · intro rows
    apply pairwise_insertionSort (rowLe label order)
    · intro a b c hab hbc ha
      exact hbc (hab ha)
    · intro x y hr hx
      by_contra hy
      have hy' : (getValueFromRow y label).truthy = true := by
        cases h : (getValueFromRow y label).truthy
        · exact absurd h hy
        · rfl
      have hxy : rowCompare label order x y = .fin 1 :=
        compareValues_falsy_truthy order hx hy'
      rw [rowLe, hxy] at hr
      exact absurd hr (by decide)
    · intro x y hr hy
      by_contra hx
      have hx' : (getValueFromRow x label).truthy = true := by
        cases h : (getValueFromRow x label).truthy
        · exact absurd h hx
        · rfl
      have hxy : rowCompare label order x y = .fin (-1) :=
        compareValues_truthy_falsy order hx' hy
      rw [rowLe, hxy] at hr
      exact hr (by decide)

/-- Witness for C3 (amended): a genuinely missing value sinks below
the present value `"100"` in both comparator directions. -/
theorem missing_values_sink_witness :
    rowCompare "price" "asc" rowMissing (priceRow "100") = .fin 1
      ∧ rowCompare "price" "asc" (priceRow "100") rowMissing = .fin (-1) :=
  (missing_values_sink "price" "asc").1 rowMissing (priceRow "100")
    (by decide) (by decide)

/-- Re-appending each element of `S` (in order) to the end of `L`
moves the members of `S` to the back, leaving the rest of `L` in
front in their original order. -/
theorem reAppend_eq {L S : List Row} (hL : L.Nodup) (hS : S.Nodup)
    (hmem : ∀ r ∈ S, r ∈ L) :
    reAppend L S = L.filter (fun r => decide (r ∉ S)) ++ S := by
  induction S generalizing L with
  | nil => simp [reAppend]
  | cons x S2 ih =>
    have hxL : x ∈ L := hmem x (List.mem_cons_self x S2)
    have hxS2 : x ∉ S2 := (List.nodup_cons.mp hS).1
    have hS2 : S2.Nodup := (List.nodup_cons.mp hS).2
    have hL2 : (L.erase x ++ [x]).Nodup := by
      refine List.nodup_append.mpr ⟨hL.erase x, List.nodup_singleton x, ?_⟩
      intro a haE haX
      rw [List.mem_singleton] at haX
      subst haX
      exact absurd ((hL.mem_erase_iff).mp haE).1 (by simp)
    have hmem2 : ∀ r ∈ S2, r ∈ L.erase x ++ [x] := by
      intro r hr
      rcases eq_or_ne r x with rfl | hne
      · exact List.mem_append_right _ (List.mem_singleton.mpr rfl)
      · exact List.mem_append_left _
          ((hL.mem_erase_iff).mpr ⟨hne, hmem r (List.mem_cons_of_mem _ hr)⟩)
    have step : reAppend L (x :: S2) = reAppend (L.erase x ++ [x]) S2 := rfl
    rw [step, ih hL2 hS2 hmem2, List.filter_append]
    have hxfilter : [x].filter (fun r => decide (r ∉ S2)) = [x] := by
      simp [hxS2]
    rw [hxfilter]
    have hfilters : (L.erase x).filter (fun r => decide (r ∉ S2))
        = L.filter (fun r => decide (r ∉ x :: S2)) := by
      rw [hL.erase_eq_filter x, List.filter_filter]
      apply List.filter_congr
      intro a _
      by_cases hax : a = x
      · subst hax
        simp
      · simp [hax]
    rw [hfilters, List.append_assoc]
    rfl

/-- Counterexample to C9: in a body holding a visible row followed by
a hidden row, a click re-appends the visible row to the end, so the
hidden row moves from position 1 to position 0 — it does not keep its
position. -/
theorem hidden_row_moves_cex :
    hiddenDemoTable.rows = [priceRow "100", hiddenRow]
    ∧ (sortTableByTable hiddenDemoTable (some "price")).1.rows
        = [hiddenRow, priceRow "100"] :=
  ⟨rfl, by decide⟩

/-- C9 as amended: hidden rows are never passed to the comparator
(only the non-hidden rows are sorted) and they keep their relative
order, but the re-append moves every non-hidden row to the end of the
body, so the hidden rows end up compacted at the front rather than in
their original absolute positions; the body remains a permutation of
the original rows. -/
theorem hidden_rows_compacted (t : Table) (k : Option String)
    (hN : t.rows.Nodup) :
    (∃ o, (sortTableByTable t k).1.rows
        = t.rows.filter (fun r => r.hidden)
          ++ sortRows (t.rows.filter (fun r => !r.hidden)) (interpAttr k) o)
    ∧ (sortTableByTable t k).1.rows.filter (fun r => r.hidden)
        = t.rows.filter (fun r => r.hidden)
    ∧ ((sortTableByTable t k).1.rows).Perm t.rows := by
  set o := if t.sortedByLabel = k ∧ t.sortOrder = some "asc" then "desc" else "asc"
    with ho
  have hvisible : (t.rows.filter (fun r => !r.hidden)).Nodup :=
    hN.filter _
  have hperm : (sortRows (t.rows.filter (fun r => !r.hidden)) (interpAttr k) o).Perm
      (t.rows.filter (fun r => !r.hidden)) :=
    List.perm_insertionSort _ _
  have hS : (sortRows (t.rows.filter (fun r => !r.hidden)) (interpAttr k) o).Nodup :=
    hperm.symm.nodup hvisible
  have hmem : ∀ r ∈ sortRows (t.rows.filter (fun r => !r.hidden)) (interpAttr k) o,
      r ∈ t.rows := by
    intro r hr
    exact (List.mem_filter.mp (hperm.mem_iff.mp hr)).1
  have hrows : (sortTableByTable t k).1.rows
      = reAppend t.rows (sortRows (t.rows.filter (fun r => !r.hidden)) (interpAttr k) o) :=
    rfl
  have hmain : (sortTableByTable t k).1.rows
      = t.rows.filter (fun r => r.hidden)
        ++ sortRows (t.rows.filter (fun r => !r.hidden)) (interpAttr k) o := by
    rw [hrows, reAppend_eq hN hS hmem]
    congr 1
    apply List.filter_congr
    intro a ha
    cases hhid : a.hidden
    · have haS : a ∈ sortRows (t.rows.filter (fun r => !r.hidden)) (interpAttr k) o := by
        rw [hperm.mem_iff]
        exact List.mem_filter.mpr ⟨ha, by simp [hhid]⟩
      simp [haS]
    · have haS : a ∉ sortRows (t.rows.filter (fun r => !r.hidden)) (interpAttr k) o := by
        rw [hperm.mem_iff]
        intro hcon
        have := (List.mem_filter.mp hcon).2
        simp [hhid] at this
      simp [haS]
  refine ⟨⟨o, hmain⟩, ?_, ?_⟩
  · rw [hmain, List.filter_append]
    have h1 : (t.rows.filter (fun r => r.hidden)).filter (fun r => r.hidden)
        = t.rows.filter (fun r => r.hidden) := by
      rw [List.filter_filter]
      apply List.filter_congr
      intro a _
      cases a.hidden <;> rfl
    have h2 : (sortRows (t.rows.filter (fun r => !r.hidden)) (interpAttr k) o).filter
        (fun r => r.hidden) = [] := by
      rw [List.filter_eq_nil_iff]
      intro a ha
      have := (List.mem_filter.mp (hperm.mem_iff.mp ha)).2
      simp at this
      simp [this]
    rw [h1, h2, List.append_nil]
  · rw [hmain]
    exact ((hperm.append_left (t.rows.filter (fun r => r.hidden))).trans
      (List.filter_append_perm (fun r => r.hidden) t.rows))

/-- Witness for C9 (amended): the table with one visible and one
hidden row satisfies the compaction description. -/
theorem hidden_rows_compacted_witness :
    (∃ o, (sortTableByTable hiddenDemoTable (some "price")).1.rows
        = hiddenDemoTable.rows.filter (fun r => r.hidden)
          ++ sortRows (hiddenDemoTable.rows.filter (fun r => !r.hidden))
              (interpAttr (some "price")) o)
    ∧ (sortTableByTable hiddenDemoTable (some "price")).1.rows.filter
        (fun r => r.hidden)
        = hiddenDemoTable.rows.filter (fun r => r.hidden)
    ∧ ((sortTableByTable hiddenDemoTable (some "price")).1.rows).Perm
        hiddenDemoTable.rows :=
  hidden_rows_compacted hiddenDemoTable (some "price") (by decide)

/-- A list with no `earlier`-effects is phase-ordered. -/
theorem phaseOrdered_of_no_earlier (p q : Effect → Bool) :
    ∀ l : List Effect, (∀ e ∈ l, p e = false) → phaseOrdered p q l = true
  | [], _ => rfl
  | e :: l, h => by
    have hall : l.all (fun e2 => !(p e2)) = true := by
      rw [List.all_eq_true]
      intro e2 he2
      rw [h e2 (List.mem_cons_of_mem _ he2)]
      rfl
    show (((!(q e)) || l.all (fun e2 => !(p e2)))
        && phaseOrdered p q l) = true
    rw [hall, phaseOrdered_of_no_earlier p q l
      (fun e2 he2 => h e2 (List.mem_cons_of_mem _ he2))]
    cases q e <;> rfl

/-- A concatenation whose front has no `later`-effects and whose back
has no `earlier`-effects is phase-ordered. -/
theorem phaseOrdered_of_partition (p q : Effect → Bool) :
    ∀ xs ys : List Effect, (∀ e ∈ xs, q e = false) → (∀ e ∈ ys, p e = false) →
      phaseOrdered p q (xs ++ ys) = true
  | [], ys, _, hy => phaseOrdered_of_no_earlier p q ys hy
  | x :: xs, ys, hx, hy => by
    show (((!(q x)) || (xs ++ ys).all (fun e2 => !(p e2)))
        && phaseOrdered p q (xs ++ ys)) = true
    rw [hx x (List.mem_cons_self x xs),
      phaseOrdered_of_partition p q xs ys
        (fun e he => hx e (List.mem_cons_of_mem _ he)) hy]
    rfl

/-- Counterexample to C5: on a concrete click the trace contains a
header-indicator write followed by a row re-append, so the indicator
refresh does not come after the re-appends as the claim orders the
effects. -/
theorem indicator_before_reorder_cex :
    (sortTableByTable demoTable (some "price")).2.any Effect.isAppend = true
    ∧ (sortTableByTable demoTable (some "price")).2.any Effect.isHeaderText = true
    ∧ phaseOrdered Effect.isAppend Effect.isHeaderText
        (sortTableByTable demoTable (some "price")).2 = false := by
  exact ⟨by decide, by decide, by decide⟩

/-- C5 as amended: on a qualifying click the two sort-state attribute
writes come first (order, then key), then every header indicator
write, and only then the row re-appends — the state commit precedes
both row reordering and indicator update, but the indicator refresh
precedes the re-appends rather than following them. -/
theorem effect_order (t : Table) (k : Option String) :
    ((sortTableByTable t k).2.take 2
        = [Effect.setAttr "data-sort-order"
            (if t.sortedByLabel = k ∧ t.sortOrder = some "asc" then "desc" else "asc"),
           Effect.setAttr "data-sorted-by-label" (interpAttr k)])
    ∧ phaseOrdered Effect.isSetAttr Effect.isHeaderText (sortTableByTable t k).2 = true
    ∧ phaseOrdered Effect.isSetAttr Effect.isAppend (sortTableByTable t k).2 = true
    ∧ phaseOrdered Effect.isHeaderText Effect.isAppend (sortTableByTable t k).2 = true := by
  set o := if t.sortedByLabel = k ∧ t.sortOrder = some "asc" then "desc" else "asc"
    with ho
  have htrace : (sortTableByTable t k).2
      = (Effect.setAttr "data-sort-order" o
          :: Effect.setAttr "data-sorted-by-label" (interpAttr k)
          :: (updateSortIndicators k o t.headers).2)
        ++ (sortRows (t.rows.filter (fun r => !r.hidden)) (interpAttr k) o).map
            Effect.appendRow := by
    show Effect.setAttr "data-sort-order" o
          :: Effect.setAttr "data-sorted-by-label" (interpAttr k)
          :: ((updateSortIndicators k o t.headers).2
            ++ (sortRows (t.rows.filter (fun r => !r.hidden)) (interpAttr k) o).map
                Effect.appendRow) = _
    simp
  have hIndKinds : ∀ e ∈ (updateSortIndicators k o t.headers).2,
      Effect.isSetAttr e = false ∧ Effect.isAppend e = false := by
    intro e he
    rcases List.mem_map.mp he with ⟨h, _, rfl⟩
    exact ⟨rfl, rfl⟩
  have hAppKinds : ∀ e ∈ (sortRows (t.rows.filter (fun r => !r.hidden))
      (interpAttr k) o).map Effect.appendRow,
      Effect.isSetAttr e = false ∧ Effect.isHeaderText e = false := by
    intro e he
    rcases List.mem_map.mp he with ⟨r, _, rfl⟩
    exact ⟨rfl, rfl⟩
  refine ⟨by rw [htrace]; rfl, ?_, ?_, ?_⟩
  · rw [htrace, show (Effect.setAttr "data-sort-order" o
        :: Effect.setAttr "data-sorted-by-label" (interpAttr k)
        :: (updateSortIndicators k o t.headers).2)
      = [Effect.setAttr "data-sort-order" o,
          Effect.setAttr "data-sorted-by-label" (interpAttr k)]
        ++ (updateSortIndicators k o t.headers).2 from rfl,
      List.append_assoc]
    apply phaseOrdered_of_partition
    · intro e he
      rcases List.mem_cons.mp he with rfl | he
      · rfl
      · rcases List.mem_cons.mp he with rfl | he
        · rfl
        · exact absurd he (List.not_mem_nil e)
    · intro e he
      rcases List.mem_append.mp he with he | he
      · rcases List.mem_map.mp he with ⟨h, _, rfl⟩
        rfl
      · rcases List.mem_map.mp he with ⟨r, _, rfl⟩
        rfl
  · rw [htrace]
    apply phaseOrdered_of_partition
    · intro e he
      rcases List.mem_cons.mp he with rfl | he
      · rfl
      · rcases List.mem_cons.mp he with rfl | he
        · rfl
        · exact (hIndKinds e he).2
    · intro e he
      exact (hAppKinds e he).1
  · rw [htrace]
    apply phaseOrdered_of_partition
    · intro e he
      rcases List.mem_cons.mp he with rfl | he
      · rfl
      · rcases List.mem_cons.mp he with rfl | he
        · rfl
        · rcases List.mem_map.mp he with ⟨h, _, rfl⟩
          rfl
    · intro e he
      exact (hAppKinds e he).2

/-- The last character of a string extended by the `asc` icon. -/
theorem getLast_append_down (s : String) : (s ++ " ↓").data.getLast? = some '↓' := by
  rw [String.data_append, show (" ↓").data = [' ', '↓'] from rfl, List.getLast?_append]
  rfl

/-- The last character of a string extended by the `desc` icon. -/
theorem getLast_append_up (s : String) : (s ++ " ↑").data.getLast? = some '↑' := by
  rw [String.data_append, show (" ↑").data = [' ', '↑'] from rfl, List.getLast?_append]
  rfl

/-- Appending an icon makes the text end in that icon's glyph, and in
a glyph at all. -/
theorem endsGlyph_append_icon (s o : String) (ho : o = "asc" ∨ o = "desc") :
    lastCharIs (s ++ (if o = "asc" then " ↓" else " ↑"))
        (if o = "asc" then '↓' else '↑') = true
    ∧ endsGlyph (s ++ (if o = "asc" then " ↓" else " ↑")) = true := by
  rcases ho with rfl | rfl
  · rw [if_pos rfl, if_pos rfl]
    constructor
    · simp [lastCharIs, getLast_append_down]
    · simp [endsGlyph, lastCharIs, getLast_append_down]
  · rw [if_neg (by decide : ¬ ("desc" = "asc")),
      if_neg (by decide : ¬ ("desc" = "asc"))]
    constructor
    · simp [lastCharIs, getLast_append_up]
    · simp [endsGlyph, lastCharIs, getLast_append_up]

/-- The text rewrite performed on each header by
`updateSortIndicators`. -/
theorem updateHeader_text (sl : Option String) (o : String) (h : Header) :
    (updateHeader sl o h).text
      = stripGlyph h.text
        ++ (if h.sortHeader = sl then (if o = "asc" then " ↓" else " ↑") else "")
    ∧ (updateHeader sl o h).sortHeader = h.sortHeader := by
  constructor
  · show (stripGlyph h.text
      ++ (if h.sortHeader = sl then (if o = "asc" then " ↓" else " ↑") else "")) = _
    rfl
  · rfl

/-- C8: after a sort on key `k` of a table whose sortable headers all
carry the key attribute, have pairwise-distinct keys (exactly one
equal to `k`) and well-formed texts (no stacked trailing glyphs),
exactly one header text ends in a directional glyph — the header
whose key is `k` — and that glyph matches the new order (`asc` gives
the down-arrow, `desc` the up-arrow); every other header text ends in
no glyph. -/
theorem indicator_glyphs (t : Table) (k : String)
    (hAll : ∀ h ∈ t.headers, h.sortHeader.isSome = true)
    (hUniq : t.headers.countP (fun h => h.sortHeader == some k) = 1)
    (hWF : ∀ h ∈ t.headers, endsGlyph (stripGlyph h.text) = false) :
    ∃ o, (sortTableByTable t (some k)).1.sortOrder = some o
      ∧ (o = "asc" ∨ o = "desc")
      ∧ (sortTableByTable t (some k)).1.headers.countP
          (fun h => endsGlyph h.text) = 1
      ∧ ∀ h ∈ (sortTableByTable t (some k)).1.headers,
          (h.sortHeader = some k →
            lastCharIs h.text (if o = "asc" then '↓' else '↑') = true
              ∧ endsGlyph h.text = true)
          ∧ (h.sortHeader ≠ some k → endsGlyph h.text = false) := by
  set o := if t.sortedByLabel = some k ∧ t.sortOrder = some "asc" then "desc" else "asc"
    with ho
  have hoCases : o = "asc" ∨ o = "desc" := by
    rw [ho]
    split_ifs
    · exact Or.inr rfl
    · exact Or.inl rfl
  have hheaders : (sortTableByTable t (some k)).1.headers
      = t.headers.map (fun h => if h.sortHeader.isSome
          then updateHeader (some k) o h else h) := rfl
  have hmap : (sortTableByTable t (some k)).1.headers
      = t.headers.map (updateHeader (some k) o) := by
    rw [hheaders]
    apply List.map_congr_left
    intro h hh
    rw [if_pos (hAll h hh)]
  have hEnds : ∀ h ∈ t.headers,
      endsGlyph (updateHeader (some k) o h).text = (h.sortHeader == some k) := by
    intro h hh
    rcases updateHeader_text (some k) o h with ⟨htext, _⟩
    by_cases hk : h.sortHeader = some k
    · rw [htext, if_pos hk, (endsGlyph_append_icon _ o hoCases).2]
      simp [hk]
    · rw [htext, if_neg hk, String.append_empty, hWF h hh]
      simp [hk]
  refine ⟨o, rfl, hoCases, ?_, ?_⟩
  · rw [hmap, List.countP_map, ← hUniq]
    apply List.countP_congr
    intro h hh
    show (endsGlyph (updateHeader (some k) o h).text = true) ↔ _
    rw [hEnds h hh]
  · intro h' hh'
    rw [hmap] at hh'
    rcases List.mem_map.mp hh' with ⟨h, hh, rfl⟩
    rcases updateHeader_text (some k) o h with ⟨htext, hkey⟩
    constructor
    · intro hk
      rw [hkey] at hk
      refine ⟨?_, ?_⟩
      · rw [htext, if_pos hk]
        exact (endsGlyph_append_icon _ o hoCases).1
      · rw [hEnds h hh]
        simp [hk]
    · intro hk
      rw [hkey] at hk
      rw [hEnds h hh]
      simp [hk]

/-- Witness for C8: the demo table, clicked on `price` with no prior
state — the `price` header alone ends in the down-arrow. -/
theorem indicator_glyphs_witness :
    ∃ o, (sortTableByTable demoTable (some "price")).1.sortOrder = some o
      ∧ (o = "asc" ∨ o = "desc")
      ∧ (sortTableByTable demoTable (some "price")).1.headers.countP
          (fun h => endsGlyph h.text) = 1
      ∧ ∀ h ∈ (sortTableByTable demoTable (some "price")).1.headers,
          (h.sortHeader = some "price" →
            lastCharIs h.text (if o = "asc" then '↓' else '↑') = true
              ∧ endsGlyph h.text = true)
          ∧ (h.sortHeader ≠ some "price" → endsGlyph h.text = false) :=
  indicator_glyphs demoTable "price" (by decide) (by decide) (by decide)

end TableSort
